import Mathlib

/-!
Verification of the ordered-position management core of a kanban task board.

The definitions below are shallow embeddings of the TypeScript functions in
`frontend/src/utils/positionCalculator.ts` (`calculateNewPosition`,
`calculatePositionForIndex`, `needsRebalancing`, `rebalancePositions`) and of
the drag-reconciliation logic `handleDragEnd` of the kanban board component.
JavaScript numbers are modelled as exact integers (`Int`); `Math.floor` of a
half-integer division is floor division (`Int.fdiv`); `x ?? d` on a possibly
missing value is `Option.getD`; array indexing `a[i]` (which yields
`undefined` out of range, including for negative indices) is `listGetJs`;
the stable `Array.prototype.sort` with comparator `(a, b) => a.position -
b.position` is a stable merge sort by `position`.
-/

namespace VibeKanban

/-- Constant `MIN_POSITION = -2147483648` (i32 minimum) from positionCalculator.ts. -/
def MIN_POSITION : Int := -2147483648

/-- Constant `MAX_POSITION = 2147483647` (i32 maximum) from positionCalculator.ts. -/
def MAX_POSITION : Int := 2147483647

/-- Constant `DEFAULT_GAP = 1000` from positionCalculator.ts. -/
def DEFAULT_GAP : Int := 1000

/-- The `TaskPosition` interface of positionCalculator.ts: an id together with
an integer position. -/
structure TaskPosition where
  id : String
  position : Int
  deriving DecidableEq

/-- Embedding of `calculateNewPosition(prevPosition, nextPosition)`:
the cascade of null tests in the source is an exhaustive match on the two
optional arguments, in the same order. -/
def calculateNewPosition (prevPosition nextPosition : Option Int) : Int :=
  match prevPosition, nextPosition with
  | none, some next => next - DEFAULT_GAP
  | some prev, none => prev + DEFAULT_GAP
  | some prev, some next =>
      let gap := next - prev
      if gap < 2 then prev + 1
      else Int.fdiv (prev + next) 2
  | none, none => 0

/-- Floor division by the positive constant 2 agrees with Euclidean division,
which `omega` understands. -/
theorem fdiv_two (x : Int) : Int.fdiv x 2 = x / 2 :=
  Int.fdiv_eq_ediv x (by decide)

/-- C2: for all integers a < b with b - a ≥ 2, `calculateNewPosition (some a)
(some b)` returns floor((a + b) / 2), which is strictly greater than a and
strictly less than b. -/
theorem calculateNewPosition_midpoint (a b : Int) (hab : a < b) (hgap : 2 ≤ b - a) :
    calculateNewPosition (some a) (some b) = Int.fdiv (a + b) 2 ∧
      a < calculateNewPosition (some a) (some b) ∧
      calculateNewPosition (some a) (some b) < b := by
  have h1 : calculateNewPosition (some a) (some b) = Int.fdiv (a + b) 2 := by
    simp only [calculateNewPosition]
    rw [if_neg (by omega)]
  refine ⟨h1, ?_, ?_⟩ <;> rw [h1, fdiv_two] <;> omega

/-- Witness for C2 at a = 0, b = 10: the midpoint 5 is returned. -/
theorem calculateNewPosition_midpoint_witness :
    calculateNewPosition (some 0) (some 10) = Int.fdiv (0 + 10) 2 ∧
      (0 : Int) < calculateNewPosition (some 0) (some 10) ∧
      calculateNewPosition (some 0) (some 10) < 10 :=
  calculateNewPosition_midpoint 0 10 (by decide) (by decide)

/-- C3: for all integers a < b with b - a < 2 (so b = a + 1),
`calculateNewPosition (some a) (some b)` returns the degraded placement a + 1,
still strictly greater than a. -/
theorem calculateNewPosition_degraded (a b : Int) (hab : a < b) (hgap : b - a < 2) :
    calculateNewPosition (some a) (some b) = a + 1 ∧ a < a + 1 := by
  constructor
  · simp only [calculateNewPosition]
    rw [if_pos (by omega)]
  · omega

/-- Witness for C3 at a = 0, b = 1: the degraded placement 1 is returned. -/
theorem calculateNewPosition_degraded_witness :
    calculateNewPosition (some 0) (some 1) = 0 + 1 ∧ (0 : Int) < 0 + 1 :=
  calculateNewPosition_degraded 0 1 (by decide) (by decide)

/-- C4: head insertion returns next - 1000, tail insertion returns
prev + 1000, and the empty-column case returns 0. -/
theorem calculateNewPosition_single_neighbor :
    (∀ n : Int, calculateNewPosition none (some n) = n - 1000) ∧
      (∀ p : Int, calculateNewPosition (some p) none = p + 1000) ∧
      calculateNewPosition none none = 0 :=
  ⟨fun _ => rfl, fun _ => rfl, rfl⟩

/-- Counterexample to C1 as stated: the input pair (none, MIN_POSITION) has its
only present neighbor inside [MIN_POSITION, MAX_POSITION], yet the head
insertion rule returns MIN_POSITION - 1000, strictly below MIN_POSITION. -/
theorem calculateNewPosition_range_cex :
    MIN_POSITION ≤ MIN_POSITION ∧ MIN_POSITION ≤ MAX_POSITION ∧
      calculateNewPosition none (some MIN_POSITION) < MIN_POSITION := by
  refine ⟨le_refl _, by decide, by decide⟩

/-- C1 (amended): the result of `calculateNewPosition` stays within
[MIN_POSITION, MAX_POSITION] provided that when both neighbors are present
they are ordered (prev < next) with prev ≥ MIN_POSITION and next ≤
MAX_POSITION, and that a single present neighbor is at least DEFAULT_GAP away
from the near bound of the range. -/
theorem calculateNewPosition_in_range (prev next : Option Int)
    (h : match prev, next with
      | some p, some n => MIN_POSITION ≤ p ∧ n ≤ MAX_POSITION ∧ p < n
      | none, some n => MIN_POSITION + DEFAULT_GAP ≤ n ∧ n ≤ MAX_POSITION
      | some p, none => MIN_POSITION ≤ p ∧ p ≤ MAX_POSITION - DEFAULT_GAP
      | none, none => True) :
    MIN_POSITION ≤ calculateNewPosition prev next ∧
      calculateNewPosition prev next ≤ MAX_POSITION := by
  have hmin : MIN_POSITION = -2147483648 := rfl
  have hmax : MAX_POSITION = 2147483647 := rfl
  have hgap : DEFAULT_GAP = 1000 := rfl
  rcases prev with _ | p <;> rcases next with _ | n
  · exact ⟨by decide, by decide⟩
  · obtain ⟨h1, h2⟩ := h
    have e : calculateNewPosition none (some n) = n - DEFAULT_GAP := rfl
    rw [e]; omega
  · obtain ⟨h1, h2⟩ := h
    have e : calculateNewPosition (some p) none = p + DEFAULT_GAP := rfl
    rw [e]; omega
  · obtain ⟨h1, h2, h3⟩ := h
    simp only [calculateNewPosition]
    rw [fdiv_two]
    split <;> omega

/-- Witness for the amended C1 at prev = 0, next = 10: the result 5 is in
range. -/
theorem calculateNewPosition_in_range_witness :
    MIN_POSITION ≤ calculateNewPosition (some 0) (some 10) ∧
      calculateNewPosition (some 0) (some 10) ≤ MAX_POSITION :=
  calculateNewPosition_in_range (some 0) (some 10) (by decide)

/-- Comparator of the JS sorts in positionCalculator.ts,
`(a, b) => a.position - b.position`: ascending by position. JS
`Array.prototype.sort` is stable, so the sort is a stable merge sort. -/
def posLe (a b : TaskPosition) : Bool := decide (a.position ≤ b.position)

/-- Embedding of the `[...tasks].sort((a, b) => a.position - b.position)`
expression used by `needsRebalancing` and `rebalancePositions`. -/
def sortByPosition (tasks : List TaskPosition) : List TaskPosition :=
  tasks.mergeSort posLe

/-- Embedding of `needsRebalancing(tasks)`: false for fewer than two tasks,
otherwise a scan of adjacent pairs of the position-sorted list for a gap
strictly below 10.  The loop `for i in 1..length` over `sorted[i] -
sorted[i-1]` is the `any` over `sorted.zip sorted.tail`. -/
def needsRebalancing (tasks : List TaskPosition) : Bool :=
  if tasks.length < 2 then false
  else
    let sorted := sortByPosition tasks
    (sorted.zip sorted.tail).any fun p => decide (p.2.position - p.1.position < 10)

/-- Element type of the array returned by `rebalancePositions`. -/
structure PositionUpdate where
  task_id : String
  position : Int
  deriving DecidableEq

/-- The gap `Math.floor(totalRange / (sortedTasks.length + 1))` computed by
`rebalancePositions`, as a function of the task count. -/
def rebalanceGap (count : Nat) : Int :=
  Int.fdiv (MAX_POSITION - MIN_POSITION) ((count : Int) + 1)

/-- Embedding of `rebalancePositions(tasks)`: sort by position, then assign
`MIN_POSITION + gap * (index + 1)` to the entry at each index. -/
def rebalancePositions (tasks : List TaskPosition) : List PositionUpdate :=
  if tasks.length = 0 then []
  else
    let sorted := sortByPosition tasks
    let gap := rebalanceGap sorted.length
    sorted.mapIdx fun index task => ⟨task.id, MIN_POSITION + gap * ((index : Int) + 1)⟩

theorem length_sortByPosition (tasks : List TaskPosition) :
    (sortByPosition tasks).length = tasks.length := by
  simp [sortByPosition]

theorem rebalancePositions_length (tasks : List TaskPosition) :
    (rebalancePositions tasks).length = tasks.length := by
  unfold rebalancePositions
  split
  · next h0 => simp [h0]
  · simp [length_sortByPosition]

theorem rebalancePositions_getElem_position (tasks : List TaskPosition) (i : Nat)
    (h : i < (rebalancePositions tasks).length) :
    (rebalancePositions tasks)[i].position =
      MIN_POSITION + rebalanceGap tasks.length * ((i : Int) + 1) := by
  have hne : ¬ tasks.length = 0 := by
    intro h0
    rw [rebalancePositions_length] at h
    omega
  simp only [rebalancePositions, if_neg hne] at h ⊢
  simp [List.getElem_mapIdx, length_sortByPosition]

theorem rebalancePositions_map_taskId (tasks : List TaskPosition) :
    (rebalancePositions tasks).map (fun u => u.task_id) =
      (sortByPosition tasks).map (fun t => t.id) := by
  by_cases hne : tasks.length = 0
  · have h0 : tasks = [] := List.length_eq_zero.mp hne
    subst h0
    simp [rebalancePositions, sortByPosition]
  · simp only [rebalancePositions, if_neg hne]
    apply List.ext_getElem
    · simp
    · intro n h1 h2
      simp [List.getElem_mapIdx]

theorem rebalanceGap_nonneg (count : Nat) : 0 ≤ rebalanceGap count :=
  Int.fdiv_nonneg (by decide) (by omega)

theorem rebalanceGap_pos (count : Nat) (h : count ≤ 4294967294) :
    1 ≤ rebalanceGap count := by
  unfold rebalanceGap
  rw [Int.fdiv_eq_ediv _ (by omega)]
  rw [Int.le_ediv_iff_mul_le (by omega)]
  have he : MAX_POSITION - MIN_POSITION = 4294967295 := by decide
  omega

theorem rebalanceGap_mul_le (count i : Nat) (hi : i < count) :
    rebalanceGap count * ((i : Int) + 1) ≤ MAX_POSITION - MIN_POSITION := by
  have hg0 : 0 ≤ rebalanceGap count := rebalanceGap_nonneg count
  have h1 : rebalanceGap count * ((i : Int) + 1) ≤ rebalanceGap count * ((count : Int) + 1) :=
    mul_le_mul_of_nonneg_left (by omega) hg0
  have h2 : rebalanceGap count * ((count : Int) + 1) ≤ MAX_POSITION - MIN_POSITION := by
    unfold rebalanceGap
    rw [Int.fdiv_eq_ediv _ (by omega)]
    exact Int.ediv_mul_le _ (by omega)
  exact le_trans h1 h2

/-- C5 (amended): for every input list of at most 4294967294 items, the output
of `rebalancePositions` has the length of the input, pairs the ids in order of
ascending current position with the positions MIN_POSITION + gap * (i + 1),
is strictly increasing, stays within [MIN_POSITION, MAX_POSITION], and is
empty for empty input.  The count bound is needed for strictness: with
4294967295 items the computed gap is 0. -/
theorem rebalancePositions_spec (tasks : List TaskPosition)
    (hcount : tasks.length ≤ 4294967294) :
    (rebalancePositions tasks).length = tasks.length ∧
      (rebalancePositions tasks).map (fun u => u.task_id) =
        (sortByPosition tasks).map (fun t => t.id) ∧
      (∀ i, ∀ h : i < (rebalancePositions tasks).length,
        (rebalancePositions tasks)[i].position =
          MIN_POSITION + rebalanceGap tasks.length * ((i : Int) + 1)) ∧
      (rebalancePositions tasks).Pairwise (fun u v => u.position < v.position) ∧
      (∀ u ∈ rebalancePositions tasks,
        MIN_POSITION ≤ u.position ∧ u.position ≤ MAX_POSITION) ∧
      (tasks = [] → rebalancePositions tasks = []) := by
  refine ⟨rebalancePositions_length tasks, rebalancePositions_map_taskId tasks,
    rebalancePositions_getElem_position tasks, ?_, ?_, ?_⟩
  · rw [List.pairwise_iff_getElem]
    intro i j hi hj hij
    rw [rebalancePositions_getElem_position tasks i hi,
      rebalancePositions_getElem_position tasks j hj]
    have hg1 : 1 ≤ rebalanceGap tasks.length := rebalanceGap_pos tasks.length hcount
    have hm : rebalanceGap tasks.length * ((i : Int) + 1) <
        rebalanceGap tasks.length * ((j : Int) + 1) :=
      mul_lt_mul_of_pos_left (by omega) (by omega)
    omega
  · intro u hu
    obtain ⟨i, hi, hui⟩ := List.mem_iff_getElem.mp hu
    have hp := rebalancePositions_getElem_position tasks i hi
    rw [hui] at hp
    have hg0 : 0 ≤ rebalanceGap tasks.length := rebalanceGap_nonneg tasks.length
    have hlow : 0 ≤ rebalanceGap tasks.length * ((i : Int) + 1) :=
      mul_nonneg hg0 (by omega)
    have hup : rebalanceGap tasks.length * ((i : Int) + 1) ≤ MAX_POSITION - MIN_POSITION := by
      apply rebalanceGap_mul_le
      rw [rebalancePositions_length] at hi
      exact hi
    omega
  · intro h0
    subst h0
    simp [rebalancePositions]

/-- Witness for the amended C5 at the two-element list (b at 5, a at 3). -/
theorem rebalancePositions_spec_witness :
    (rebalancePositions [TaskPosition.mk "b" 5, TaskPosition.mk "a" 3]).length =
        [TaskPosition.mk "b" 5, TaskPosition.mk "a" 3].length ∧
      (rebalancePositions [TaskPosition.mk "b" 5, TaskPosition.mk "a" 3]).map
          (fun u => u.task_id) =
        (sortByPosition [TaskPosition.mk "b" 5, TaskPosition.mk "a" 3]).map
          (fun t => t.id) ∧
      (∀ i, ∀ h : i < (rebalancePositions
          [TaskPosition.mk "b" 5, TaskPosition.mk "a" 3]).length,
        (rebalancePositions [TaskPosition.mk "b" 5, TaskPosition.mk "a" 3])[i].position =
          MIN_POSITION + rebalanceGap
            [TaskPosition.mk "b" 5, TaskPosition.mk "a" 3].length * ((i : Int) + 1)) ∧
      (rebalancePositions [TaskPosition.mk "b" 5, TaskPosition.mk "a" 3]).Pairwise
        (fun u v => u.position < v.position) ∧
      (∀ u ∈ rebalancePositions [TaskPosition.mk "b" 5, TaskPosition.mk "a" 3],
        MIN_POSITION ≤ u.position ∧ u.position ≤ MAX_POSITION) ∧
      ([TaskPosition.mk "b" 5, TaskPosition.mk "a" 3] = ([] : List TaskPosition) →
        rebalancePositions [TaskPosition.mk "b" 5, TaskPosition.mk "a" 3] = []) :=
  rebalancePositions_spec [TaskPosition.mk "b" 5, TaskPosition.mk "a" 3] (by decide)

/-- Counterexample to C5 as stated: a list of 4294967295 items (a length a JS
array can reach) makes the computed gap floor(4294967295 / 4294967296) = 0,
so every output position is MIN_POSITION and the output is not strictly
increasing. -/
theorem rebalancePositions_strict_cex :
    ¬ (rebalancePositions (List.replicate 4294967295 (TaskPosition.mk "a" 0))).Pairwise
        (fun u v => u.position < v.position) := by
  intro hp
  have hlen : (rebalancePositions
      (List.replicate 4294967295 (TaskPosition.mk "a" 0))).length = 4294967295 := by
    rw [rebalancePositions_length, List.length_replicate]
  rw [List.pairwise_iff_getElem] at hp
  have h01 := hp 0 1 (by omega) (by omega) (by omega)
  have e0 := rebalancePositions_getElem_position
    (List.replicate 4294967295 (TaskPosition.mk "a" 0)) 0 (by omega)
  have e1 := rebalancePositions_getElem_position
    (List.replicate 4294967295 (TaskPosition.mk "a" 0)) 1 (by omega)
  rw [e0, e1] at h01
  have hg : rebalanceGap (List.replicate 4294967295 (TaskPosition.mk "a" 0)).length = 0 := by
    rw [List.length_replicate]
    decide
  rw [hg] at h01
  omega

/-- C6: `needsRebalancing` returns true exactly when some adjacent pair of the
position-sorted list has a gap strictly below 10; for fewer than two tasks
there is no adjacent pair and it returns false. -/
theorem needsRebalancing_iff (tasks : List TaskPosition) :
    needsRebalancing tasks = true ↔
      ∃ i, ∃ h : i + 1 < (sortByPosition tasks).length,
        (sortByPosition tasks)[i + 1].position -
          (sortByPosition tasks)[i].position < 10 := by
  simp only [needsRebalancing]
  by_cases hlen : tasks.length < 2
  · rw [if_pos hlen]
    constructor
    · intro h
      exact absurd h (by simp)
    · rintro ⟨i, h, _⟩
      rw [length_sortByPosition] at h
      omega
  · rw [if_neg hlen]
    rw [List.any_eq_true]
    constructor
    · rintro ⟨pr, hmem, hf⟩
      obtain ⟨i, hi, hpr⟩ := List.mem_iff_getElem.mp hmem
      have hzlen : ((sortByPosition tasks).zip (sortByPosition tasks).tail).length =
          (sortByPosition tasks).length - 1 := by
        rw [List.length_zip, List.length_tail]
        omega
      have hi2 : i < (sortByPosition tasks).length - 1 := by omega
      have hi3 : i < (sortByPosition tasks).tail.length := by
        rw [List.length_tail]; omega
      have hi4 : i < (sortByPosition tasks).length := by omega
      refine ⟨i, by omega, ?_⟩
      have hpair : pr = ((sortByPosition tasks)[i],
          (sortByPosition tasks).tail[i]) := by
        rw [← hpr, List.getElem_zip]
      rw [hpair] at hf
      rw [List.getElem_tail] at hf
      exact of_decide_eq_true hf
    · rintro ⟨i, h, hlt⟩
      have hi4 : i < (sortByPosition tasks).length := by omega
      refine ⟨((sortByPosition tasks)[i],
        (sortByPosition tasks)[i + 1]), ?_, ?_⟩
      · rw [List.mem_iff_getElem]
        refine ⟨i, ?_, ?_⟩
        · rw [List.length_zip, List.length_tail]
          omega
        · rw [List.getElem_zip]
          congr 1
          rw [List.getElem_tail]
      · exact decide_eq_true hlt

/-- Writing the updates produced by `rebalancePositions` back as the new
positions of the same items, in the same order. -/
def applyUpdates (updates : List PositionUpdate) : List TaskPosition :=
  updates.map fun u => ⟨u.task_id, u.position⟩

theorem applyUpdates_length (updates : List PositionUpdate) :
    (applyUpdates updates).length = updates.length := by
  simp [applyUpdates]

/-- C7: rebalancing is idempotent with respect to order: feeding the output
positions of `rebalancePositions` back in (same items, same order) and
rebalancing again yields the items in the same order. -/
theorem rebalancePositions_idempotent (tasks : List TaskPosition) :
    (rebalancePositions (applyUpdates (rebalancePositions tasks))).map
        (fun u => u.task_id) =
      (rebalancePositions tasks).map (fun u => u.task_id) := by
  by_cases hne : tasks.length = 0
  · have h0 : tasks = [] := List.length_eq_zero.mp hne
    subst h0
    simp [rebalancePositions, applyUpdates]
  · have hlen1 : (applyUpdates (rebalancePositions tasks)).length = tasks.length := by
      rw [applyUpdates_length, rebalancePositions_length]
    have hpos : ∀ i, ∀ h : i < (applyUpdates (rebalancePositions tasks)).length,
        (applyUpdates (rebalancePositions tasks))[i].position =
          MIN_POSITION + rebalanceGap tasks.length * ((i : Int) + 1) := by
      intro i h
      have h2 : i < (rebalancePositions tasks).length := by
        rw [applyUpdates_length] at h
        exact h
      simp only [applyUpdates, List.getElem_map]
      exact rebalancePositions_getElem_position tasks i h2
    have hsorted : List.Pairwise (fun a b => posLe a b = true)
        (applyUpdates (rebalancePositions tasks)) := by
      rw [List.pairwise_iff_getElem]
      intro i j hi hj hij
      simp only [posLe, decide_eq_true_eq]
      rw [hpos i hi, hpos j hj]
      have hg0 : 0 ≤ rebalanceGap tasks.length := rebalanceGap_nonneg tasks.length
      have hm : rebalanceGap tasks.length * ((i : Int) + 1) ≤
          rebalanceGap tasks.length * ((j : Int) + 1) :=
        mul_le_mul_of_nonneg_left (by omega) hg0
      omega
    have hsort : sortByPosition (applyUpdates (rebalancePositions tasks)) =
        applyUpdates (rebalancePositions tasks) :=
      List.mergeSort_of_sorted hsorted
    rw [rebalancePositions_map_taskId, hsort]
    simp only [applyUpdates, List.map_map]
    rfl

/-- Tasks as seen by the kanban board component (`Task = TaskWithAttemptStatus`
in the source); only the fields the drag logic reads are modelled.  Named
`BoardTask` because `Task` is taken in Lean. -/
structure BoardTask where
  id : String
  status : String
  position : Int
  deriving DecidableEq

/-- The projection from a board task to the `TaskPosition` shape consumed by
the position calculator. -/
def toTaskPosition (t : BoardTask) : TaskPosition := ⟨t.id, t.position⟩

/-- The `TASK_STATUSES` constant of the kanban board component. -/
def TASK_STATUSES : List String := ["todo", "inprogress", "inreview", "done", "cancelled"]

/-- JS `x || dflt` on an optional string: both a missing value and the empty
string fall back to the default. -/
def jsOr (v : Option String) (dflt : String) : String :=
  match v with
  | some s => if s = "" then dflt else s
  | none => dflt

/-- JS `Array.prototype.findIndex`, which returns -1 when nothing matches. -/
def findIndexJs {α : Type} (p : α → Bool) (l : List α) : Int :=
  match l.findIdx? p with
  | some i => (i : Int)
  | none => -1

/-- JS array indexing `l[i]`: undefined (none) for negative and out-of-range
indices. -/
def listGetJs {α : Type} (l : List α) (i : Int) : Option α :=
  if i < 0 then none else l[i.toNat]?

/-- The inline position computation of `handleDragEnd` for a drop onto the
task at `overIndex` of the target column list: the top branch for index 0,
the bottom branch for the last index, and otherwise the floor midpoint of
`targetTasks[overIndex - 1]` and `targetTasks[overIndex]`, with the
`?? 0` and `?? prevPos + 2000` fallbacks of the source. -/
def inlineNewPosition (targetTasks : List BoardTask) (overIndex : Int) : Int :=
  if overIndex = 0 then
    ((listGetJs targetTasks 0).map BoardTask.position).getD 0 - 1000
  else if overIndex = (targetTasks.length : Int) - 1 then
    ((listGetJs targetTasks ((targetTasks.length : Int) - 1)).map
      BoardTask.position).getD 0 + 1000
  else
    let prevPos := ((listGetJs targetTasks (overIndex - 1)).map BoardTask.position).getD 0
    let nextPos := ((listGetJs targetTasks overIndex).map
      BoardTask.position).getD (prevPos + 2000)
    Int.fdiv (prevPos + nextPos) 2

/-- The single mutation request `handleDragEnd` sends to the persistence API:
either nothing (an early return), or one `tasksApi.update` call carrying an
optional new status and an optional new position. -/
inductive Mutation where
  | noOp : Mutation
  | update (taskId : String) (newStatus : Option String) (newPosition : Option Int) : Mutation
  deriving DecidableEq

/-- Embedding of the decision logic of `handleDragEnd`.  `over` is the id
under the drop point (none when the drop had no target), `hasActiveData`
models the `active.data.current` null check, `activeParent` and `overParent`
model `activeData?.parent` and `overData?.parent`.  Dropping on a column id
changes the status (or returns early if unchanged); dropping on a task
computes `inlineNewPosition` at the index of that task in the target column
and always requests a position update. -/
def handleDragEnd (tasksById : String → Option BoardTask)
    (kanbanColumns : String → List BoardTask)
    (over : Option String) (hasActiveData : Bool)
    (draggedTaskId : String)
    (activeParent overParent : Option String) : Mutation :=
  match over with
  | none => .noOp
  | some overId =>
    if hasActiveData = false then .noOp
    else
      match tasksById draggedTaskId with
      | none => .noOp
      | some task =>
        if TASK_STATUSES.contains overId then
          if task.status = overId then .noOp
          else .update draggedTaskId (some overId) none
        else
          match tasksById overId with
          | none => .noOp
          | some overTask =>
            let sourceStatus := jsOr activeParent task.status
            let targetStatus := jsOr overParent overTask.status
            let targetTasks := kanbanColumns targetStatus
            let overIndex := findIndexJs (fun t => decide (t.id = overId)) targetTasks
            let newPosition := inlineNewPosition targetTasks overIndex
            let statusChanged := sourceStatus ≠ targetStatus
            .update draggedTaskId (if statusChanged then some targetStatus else none)
              (some newPosition)

/-- The dragged-task filter at the top of `calculatePositionForIndex`:
`draggedTaskId ? tasks.filter((t) => t.id !== draggedTaskId) : tasks`, where
an absent or empty-string id (JS falsiness) skips the filtering. -/
def filteredTasks (tasks : List TaskPosition) (draggedTaskId : Option String) :
    List TaskPosition :=
  match draggedTaskId with
  | some dId => if dId = "" then tasks else tasks.filter fun t => decide (t.id ≠ dId)
  | none => tasks

/-- Embedding of `calculatePositionForIndex(targetIndex, tasks,
draggedTaskId)`: filter out the dragged task, read the optional neighbors at
`targetIndex - 1` and `targetIndex`, and delegate to `calculateNewPosition`. -/
def calculatePositionForIndex (targetIndex : Int) (tasks : List TaskPosition)
    (draggedTaskId : Option String) : Int :=
  let prevTask := listGetJs (filteredTasks tasks draggedTaskId) (targetIndex - 1)
  let nextTask := listGetJs (filteredTasks tasks draggedTaskId) targetIndex
  calculateNewPosition (prevTask.map TaskPosition.position)
    (nextTask.map TaskPosition.position)

theorem listGetJs_map {α β : Type} (f : α → β) (l : List α) (i : Int) :
    listGetJs (l.map f) i = (listGetJs l i).map f := by
  unfold listGetJs
  by_cases h : i < 0
  · simp [h]
  · simp [h, List.getElem?_map]

theorem listGetJs_eq_getElem {α : Type} (l : List α) (i : Int) (h0 : 0 ≤ i)
    (h : i.toNat < l.length) :
    listGetJs l i = some l[i.toNat] := by
  unfold listGetJs
  rw [if_neg (by omega)]
  rw [List.getElem?_eq_getElem h]

theorem listGetJs_eq_none {α : Type} (l : List α) (i : Int)
    (h : i < 0 ∨ (l.length : Int) ≤ i) :
    listGetJs l i = none := by
  unfold listGetJs
  by_cases h2 : i < 0
  · rw [if_pos h2]
  · rw [if_neg h2]
    rcases h with h | h
    · omega
    · exact List.getElem?_eq_none (by omega)

theorem filteredTasks_of_not_mem (tasks : List TaskPosition) (dId : String)
    (hno : ∀ t ∈ tasks, t.id ≠ dId) :
    filteredTasks tasks (some dId) = tasks := by
  show (if dId = "" then tasks else tasks.filter fun t => decide (t.id ≠ dId)) = tasks
  by_cases h : dId = ""
  · rw [if_pos h]
  · rw [if_neg h]
    exact List.filter_eq_self.mpr fun t ht => decide_eq_true (hno t ht)

/-- Concrete board for the same-slot drop scenario: the todo column holds A
and B at the tied position 1000 (ties may pre-exist) and C at 2000. -/
def dragCexTasks : String → Option BoardTask := fun id =>
  if id = "A" then some ⟨"A", "todo", 1000⟩
  else if id = "B" then some ⟨"B", "todo", 1000⟩
  else if id = "C" then some ⟨"C", "todo", 2000⟩
  else none

/-- Columns of the same-slot drop scenario. -/
def dragCexColumns : String → List BoardTask := fun s =>
  if s = "todo" then [⟨"A", "todo", 1000⟩, ⟨"B", "todo", 1000⟩, ⟨"C", "todo", 2000⟩]
  else []

/-- Counterexample to C8 as stated: B is dropped onto its own slot in its own
column (source and target status both todo), the inline computation yields
exactly B's current position 1000, and yet `handleDragEnd` requests a
position update rather than doing nothing. -/
theorem handleDragEnd_noOp_cex :
    dragCexTasks "B" = some (BoardTask.mk "B" "todo" 1000) ∧
      inlineNewPosition (dragCexColumns "todo")
        (findIndexJs (fun t => decide (t.id = "B")) (dragCexColumns "todo")) = 1000 ∧
      handleDragEnd dragCexTasks dragCexColumns (some "B") true "B"
          (some "todo") (some "todo") =
        Mutation.update "B" none (some 1000) ∧
      Mutation.update "B" none (some 1000) ≠ Mutation.noOp := by
  refine ⟨rfl, by decide, by decide, by decide⟩

/-- C8 (amended): dropping an item on the slot it already occupies within its
own column (same source and target status, computed position equal to the
item's current position) does not produce a no-op: `handleDragEnd` still
requests an update, carrying no status change and the unchanged position
value. -/
theorem handleDragEnd_same_slot (tasksById : String → Option BoardTask)
    (kanbanColumns : String → List BoardTask)
    (overId draggedTaskId : String) (activeParent overParent : Option String)
    (task overTask : BoardTask)
    (htask : tasksById draggedTaskId = some task)
    (hnotStatus : TASK_STATUSES.contains overId = false)
    (hover : tasksById overId = some overTask)
    (hsame : jsOr activeParent task.status = jsOr overParent overTask.status)
    (hpos : inlineNewPosition (kanbanColumns (jsOr overParent overTask.status))
        (findIndexJs (fun t => decide (t.id = overId))
          (kanbanColumns (jsOr overParent overTask.status))) = task.position) :
    handleDragEnd tasksById kanbanColumns (some overId) true draggedTaskId
        activeParent overParent =
      Mutation.update draggedTaskId none (some task.position) := by
  simp only [handleDragEnd, htask, hnotStatus, hover]
  simp only [Bool.false_eq_true, if_false, hsame, hpos]
  simp

/-- Witness for the amended C8 at the same-slot drop scenario of the
counterexample. -/
theorem handleDragEnd_same_slot_witness :
    handleDragEnd dragCexTasks dragCexColumns (some "B") true "B"
        (some "todo") (some "todo") =
      Mutation.update "B" none (some 1000) :=
  handleDragEnd_same_slot dragCexTasks dragCexColumns "B" "B"
    (some "todo") (some "todo")
    (BoardTask.mk "B" "todo" 1000) (BoardTask.mk "B" "todo" 1000)
    rfl (by decide) rfl rfl (by decide)

/-- Counterexample to C9 as stated: with the target column A(0), B(1000),
C(2000) and A being dragged onto B (drop index 1), the reconciler's inline
computation uses the unfiltered neighbors A and B and yields 500, while
`calculatePositionForIndex` removes A first, sees the neighbors B and C, and
yields 1500. -/
theorem inlineNewPosition_vs_calc_cex :
    inlineNewPosition
        [⟨"A", "todo", 0⟩, ⟨"B", "todo", 1000⟩, ⟨"C", "todo", 2000⟩] 1 = 500 ∧
      calculatePositionForIndex 1
        ([(⟨"A", "todo", 0⟩ : BoardTask), ⟨"B", "todo", 1000⟩,
          ⟨"C", "todo", 2000⟩].map toTaskPosition) (some "A") = 1500 ∧
      (500 : Int) ≠ 1500 := by
  refine ⟨by decide, by decide, by decide⟩

/-- C9 (amended): the reconciler's inline computation agrees with
`calculatePositionForIndex` only under extra conditions the claim omits: the
dragged task must not occur in the target column's list (so that the missing
filtering step is irrelevant), and the drop index must be either 0 (on a
nonempty list) or interior (strictly between 0 and length - 1) with the two
unfiltered neighbors at least 2 apart (the inline code lacks the small-gap
branch, and treats the last index as an append past the end). -/
theorem inlineNewPosition_eq_calc (targetTasks : List BoardTask) (overIndex : Int)
    (draggedTaskId : String)
    (hno : ∀ t ∈ targetTasks, t.id ≠ draggedTaskId)
    (hcase : (overIndex = 0 ∧ targetTasks ≠ []) ∨
      (1 ≤ overIndex ∧ overIndex < (targetTasks.length : Int) - 1))
    (hgap : ∀ p q : BoardTask, listGetJs targetTasks (overIndex - 1) = some p →
      listGetJs targetTasks overIndex = some q → 2 ≤ q.position - p.position) :
    inlineNewPosition targetTasks overIndex =
      calculatePositionForIndex overIndex (targetTasks.map toTaskPosition)
        (some draggedTaskId) := by
  have hfilter : filteredTasks (targetTasks.map toTaskPosition) (some draggedTaskId) =
      targetTasks.map toTaskPosition := by
    apply filteredTasks_of_not_mem
    intro t ht
    obtain ⟨b, hb, rfl⟩ := List.mem_map.mp ht
    exact hno b hb
  unfold calculatePositionForIndex
  rw [hfilter, listGetJs_map, listGetJs_map]
  rcases hcase with ⟨h0, hne⟩ | ⟨h1, h2⟩
  · subst h0
    have hlen : 0 < targetTasks.length := List.length_pos.mpr hne
    have hp : listGetJs targetTasks (0 - 1) = none :=
      listGetJs_eq_none _ _ (Or.inl (by omega))
    have hq : listGetJs targetTasks 0 = some targetTasks[(0 : Int).toNat] :=
      listGetJs_eq_getElem _ _ (by omega) (by omega)
    unfold inlineNewPosition
    rw [if_pos rfl, hp, hq]
    rfl
  · have hpb : (overIndex - 1).toNat < targetTasks.length := by omega
    have hqb : overIndex.toNat < targetTasks.length := by omega
    have hp : listGetJs targetTasks (overIndex - 1) =
        some targetTasks[(overIndex - 1).toNat] :=
      listGetJs_eq_getElem _ _ (by omega) hpb
    have hq : listGetJs targetTasks overIndex = some targetTasks[overIndex.toNat] :=
      listGetJs_eq_getElem _ _ (by omega) hqb
    have hgap2 : 2 ≤ targetTasks[overIndex.toNat].position -
        targetTasks[(overIndex - 1).toNat].position := hgap _ _ hp hq
    unfold inlineNewPosition
    rw [if_neg (by omega), if_neg (by omega), hp, hq]
    simp only [Option.map_some', Option.getD_some, toTaskPosition, calculateNewPosition]
    rw [if_neg (by omega)]

/-- Witness for the amended C9: dragging Z (absent from the column) onto the
interior index 1 of X(0), Y(10), W(2000); both computations give 5. -/
theorem inlineNewPosition_eq_calc_witness :
    inlineNewPosition [⟨"X", "t", 0⟩, ⟨"Y", "t", 10⟩, ⟨"W", "t", 2000⟩] 1 =
      calculatePositionForIndex 1
        ([(⟨"X", "t", 0⟩ : BoardTask), ⟨"Y", "t", 10⟩,
          ⟨"W", "t", 2000⟩].map toTaskPosition) (some "Z") := by
  apply inlineNewPosition_eq_calc
  · decide
  · right
    exact ⟨by decide, by decide⟩
  · intro p q hp hq
    have hp2 : listGetJs [(⟨"X", "t", 0⟩ : BoardTask), ⟨"Y", "t", 10⟩,
        ⟨"W", "t", 2000⟩] (1 - 1) = some ⟨"X", "t", 0⟩ := by decide
    have hq2 : listGetJs [(⟨"X", "t", 0⟩ : BoardTask), ⟨"Y", "t", 10⟩,
        ⟨"W", "t", 2000⟩] 1 = some ⟨"Y", "t", 10⟩ := by decide
    rw [hp2] at hp
    rw [hq2] at hq
    obtain rfl := Option.some.inj hp
    obtain rfl := Option.some.inj hq
    decide

/-- C10: `calculatePositionForIndex` is total (it is a Lean function into
`Int`, so it returns an integer on every input); at target index 0 the
missing previous neighbor is passed to the calculator as none (head
insertion), and at or beyond the end of the filtered list the missing next
neighbor is passed as none (tail insertion). -/
theorem calculatePositionForIndex_boundaries (targetIndex : Int)
    (tasks : List TaskPosition) (draggedTaskId : Option String) :
    (targetIndex = 0 →
      calculatePositionForIndex targetIndex tasks draggedTaskId =
        calculateNewPosition none
          ((listGetJs (filteredTasks tasks draggedTaskId) 0).map
            TaskPosition.position)) ∧
      (((filteredTasks tasks draggedTaskId).length : Int) ≤ targetIndex →
        calculatePositionForIndex targetIndex tasks draggedTaskId =
          calculateNewPosition
            ((listGetJs (filteredTasks tasks draggedTaskId) (targetIndex - 1)).map
              TaskPosition.position) none) := by
  constructor
  · intro h0
    subst h0
    unfold calculatePositionForIndex
    rw [listGetJs_eq_none _ _ (Or.inl (by omega))]
    rfl
  · intro hlen
    unfold calculatePositionForIndex
    rw [listGetJs_eq_none (filteredTasks tasks draggedTaskId) targetIndex (Or.inr hlen)]
    rfl

/-- Witness for C10: on the one-element list (a at 100) with no dragged id,
index 0 is a head insertion giving 100 - 1000 = -900 and index 1 is a tail
insertion giving 100 + 1000 = 1100. -/
theorem calculatePositionForIndex_boundaries_witness :
    calculatePositionForIndex 0 [TaskPosition.mk "a" 100] none = -900 ∧
      calculatePositionForIndex 1 [TaskPosition.mk "a" 100] none = 1100 := by
  have h1 := (calculatePositionForIndex_boundaries 0 [TaskPosition.mk "a" 100] none).1 rfl
  have h2 := (calculatePositionForIndex_boundaries 1 [TaskPosition.mk "a" 100] none).2
    (by decide)
  constructor
  · rw [h1]; decide
  · rw [h2]; decide

end VibeKanban
